import Mathlib

/-!
# Verification of the `Keep` coordination actor (`keep.go`)

Shallow embedding of the request-coalescing TTL cache-refresh coordinator.
Time is modelled as `Nat` (nanoseconds, matching Go's `time.Time`/`time.Duration`
granularity); `t1.Before t2` becomes `t1 < t2`.  Byte slices are `List Nat`.
Waiter channels are identified by `Nat` ids; the effects the actor performs on
channels (a `close` or a send of bytes) are returned as an explicit action list.
A Go `panic` is modelled by returning `none`.
-/

namespace Keep

/-- Mirrors Go `EntryInfo` (`keep.go` lines 12-17). -/
structure EntryInfo where
  path : String
  count : Nat
  lastFetched : Nat
  fetching : Bool
deriving Repr, DecidableEq

/-- Mirrors Go `entry` (`keep.go` lines 19-24): the info plus the list of waiter
channels (identified by `Nat` ids). -/
structure entry where
  info : EntryInfo
  waiters : List Nat
deriving Repr, DecidableEq

/-- The three message kinds of the protocol (`requestKeepMessage`,
`fetchingKeepMessage`, `fetchedKeepMessage`).  `fetched` carries `data : Option`
mirroring the Go `*[]byte` that may be `nil`. -/
inductive KeepMessage where
  | request (path : String)
  | fetching (path : String) (waiter : Nat)
  | fetched (path : String) (data : Option (List Nat))
deriving Repr, DecidableEq

/-- Mirrors the Go `Path()` method on each message type. -/
def KeepMessage.Path : KeepMessage → String
  | .request p => p
  | .fetching p _ => p
  | .fetched p _ => p

/-- An observable effect the actor performs on a waiter channel:
`closed ch` models `close(ch)`, `sent ch d` models `ch <- d`. -/
inductive ChanAction where
  | closed (ch : Nat)
  | sent (ch : Nat) (data : List Nat)
deriving Repr, DecidableEq

/-- Go map lookup `k.entries[path]` (the entry table is keyed by path). -/
def findEntry (entries : List entry) (path : String) : Option entry :=
  entries.find? (fun e => e.info.path == path)

/-- Lines 206-212 of `run`: look up the entry, or create a fresh one with
`count = 0`, `fetching = false` and `lastFetched = time.Now()`. -/
def lookupOrCreate (now : Nat) (entries : List entry) (path : String) : entry :=
  match findEntry entries path with
  | some e => e
  | none =>
    { info := { path := path, count := 0, lastFetched := now, fetching := false },
      waiters := [] }

/-- Go map store `k.entries[path] = e` (line 243): replace the entry keyed by
`path`, or insert it when absent. -/
def setEntry (entries : List entry) (path : String) (e : entry) : List entry :=
  if entries.any (fun x => x.info.path == path) then
    entries.map (fun x => if x.info.path == path then e else x)
  else entries ++ [e]

/-- One execution of the `case msg := <-k.messageChannel` body of `Keep.run`
(lines 204-243): look up or create the entry, dispatch on the message kind,
store the entry back.  Returns the new table and the channel actions performed,
or `none` when the code panics (`fetched` while not fetching, line 226). -/
def processMessage (now : Nat) (entries : List entry) (msg : KeepMessage) :
    Option (List entry × List ChanAction) :=
  let path := msg.Path
  let e := lookupOrCreate now entries path
  match msg with
  | .request _ =>
    let e1 : entry := { e with info := { e.info with count := e.info.count + 1 } }
    some (setEntry entries path e1, [])
  | .fetching _ waiter =>
    if e.info.fetching then
      let e1 : entry := { e with waiters := e.waiters ++ [waiter] }
      some (setEntry entries path e1, [])
    else
      let e1 : entry := { e with info := { e.info with fetching := true } }
      some (setEntry entries path e1, [ChanAction.closed waiter])
  | .fetched _ data =>
    if e.info.fetching then
      let acts := e.waiters.map (fun w =>
        match data with
        | some d => ChanAction.sent w d
        | none => ChanAction.closed w)
      let e1 : entry :=
        { info := { e.info with lastFetched := now, fetching := false },
          waiters := [] }
      some (setEntry entries path e1, acts)
    else none

/-! ## Fetch executor (`Keep.fetch`, lines 83-137)

The HTTP environment is abstracted as the outcomes the code branches on:
whether `http.NewRequest` fails, whether `http.DefaultClient.Do` fails, the
response's `Content-Type` header value, whether `io.Copy` fails, and the
response body bytes.  The executor's observable behaviour is returned as a
`FetchResult`. -/

/-- The outcomes of the external HTTP calls that `Keep.fetch` branches on. -/
structure FetchEnv where
  reqError : Bool
  transportError : Bool
  contentType : String
  copyError : Bool
  body : List Nat
deriving Repr, DecidableEq

/-- Observable behaviour of one `Keep.fetch` invocation: the `fetched`
messages it sends (path paired with the optional data), whether it wrote a
`400 Bad Request` to the live sink, whether it wrote a `200 OK` header to the
live sink, the bytes handed to `Cache.Set` (if any), and whether the function
returned a non-nil error. -/
structure FetchResult where
  sentMessages : List (String × Option (List Nat))
  sinkBadRequest : Bool
  sinkWroteOk : Bool
  cacheSet : Option (List Nat)
  returnedError : Bool
deriving Repr, DecidableEq

/-- Go `strings.Split(s, ";")[0]`: the part of the content type strictly before
the first `;` (the whole string when there is none). -/
def contentTypeMain (s : String) : String :=
  String.mk (s.toList.takeWhile (fun c => c ≠ ';'))

/-- Mirrors `Keep.fetch` (lines 83-137).  `dataPtr` starts `nil`; the deferred
`sendFetchedMessage` fires on every return path, so every branch produces
exactly the one message recorded in `sentMessages`.  `hasSink` is whether
`responseWriter != nil`. -/
def fetch (env : FetchEnv) (path : String) (hasSink : Bool) : FetchResult :=
  if env.reqError then
    { sentMessages := [(path, none)], sinkBadRequest := false, sinkWroteOk := false,
      cacheSet := none, returnedError := true }
  else if env.transportError then
    { sentMessages := [(path, none)], sinkBadRequest := false, sinkWroteOk := false,
      cacheSet := none, returnedError := true }
  else if contentTypeMain env.contentType ≠ "application/json" then
    { sentMessages := [(path, none)], sinkBadRequest := hasSink, sinkWroteOk := false,
      cacheSet := none, returnedError := false }
  else if env.copyError then
    { sentMessages := [(path, none)], sinkBadRequest := false, sinkWroteOk := hasSink,
      cacheSet := none, returnedError := false }
  else
    { sentMessages := [(path, some env.body)], sinkBadRequest := false,
      sinkWroteOk := hasSink, cacheSet := some env.body, returnedError := false }

/-- The condition under which the body reaches the buffer intact: no early
abort and no copy error. -/
def copySucceeded (env : FetchEnv) : Bool :=
  !env.reqError && !env.transportError &&
    (contentTypeMain env.contentType == "application/json") && !env.copyError

/-! ## Expiry scheduler (`fetchExpired`, `shortestTimeout`, `serviceTimer`,
lines 139-194) -/

/-- `const expireDuration time.Duration = time.Duration(10) * time.Second`
(line 154), in nanoseconds. -/
def expireDuration : Nat := 10 * 1000000000

/-- A background fetch launched by the sweep: `go k.fetch(path, nil)` —
`hasSink` records whether a live response sink was passed (always `false`
from the sweep). -/
structure FetchLaunch where
  path : String
  hasSink : Bool
deriving Repr, DecidableEq

/-- The sweep's action on one entry (body of the loop in `fetchExpired`,
lines 142-151): a non-fetching entry whose `lastFetched + expireDuration` is
strictly before `now` is marked fetching and a sink-less background fetch is
launched for its path. -/
def fetchExpiredEntry (now : Nat) (e : entry) : entry × Option FetchLaunch :=
  if e.info.fetching then (e, none)
  else if e.info.lastFetched + expireDuration < now then
    ({ e with info := { e.info with fetching := true } },
     some { path := e.info.path, hasSink := false })
  else (e, none)

/-- Mirrors `Keep.fetchExpired` (lines 139-152): apply the sweep to every
entry, collecting the launched background fetches. -/
def fetchExpired (now : Nat) (entries : List entry) : List entry × List FetchLaunch :=
  (entries.map (fun e => (fetchExpiredEntry now e).1),
   entries.filterMap (fun e => (fetchExpiredEntry now e).2))

/-- Mirrors `Keep.shortestTimeout` (lines 156-174): fold over the entries
keeping the earliest `lastFetched` among non-fetching entries (seeded with
`now`) and whether any such strictly-earlier value was seen (`expiring`);
return the remaining duration until `earliest + expireDuration` (0 when that
instant is already strictly past) together with the `expiring` flag. -/
def shortestTimeout (now : Nat) (entries : List entry) : Nat × Bool :=
  let p := entries.foldl
    (fun acc e =>
      if e.info.fetching then acc
      else if e.info.lastFetched < acc.1 then (e.info.lastFetched, true) else acc)
    (now, false)
  let expires := p.1 + expireDuration
  if expires < now then (0, p.2)
  else (expires - now, p.2)

/-- The `for` loop of `Keep.serviceTimer` (lines 181-193) at a fixed clock
reading `now` (modelling the `time.Now()` samples taken during one pass as
equal).  Returns the entry table, the armed timer duration (`none` when the
loop returned without arming one) and the accumulated background launches;
`none` when the loop does not terminate within `fuel` iterations. -/
def serviceTimerLoop (now : Nat) : Nat → List entry → Option (List entry × Option Nat × List FetchLaunch)
  | 0, _ => none
  | fuel + 1, entries =>
    let swept := fetchExpired now entries
    let st := shortestTimeout now swept.1
    if st.2 = false then some (swept.1, none, swept.2)
    else if 0 < st.1 then some (swept.1, some st.1, swept.2)
    else
      match serviceTimerLoop now fuel swept.1 with
      | none => none
      | some (es, t, ls) => some (es, t, swept.2 ++ ls)

/-- Mirrors `Keep.serviceTimer` (lines 176-194) including the early return
when a timer is already armed. -/
def serviceTimer (now : Nat) (timer : Option Nat) (fuel : Nat) (entries : List entry) :
    Option (List entry × Option Nat × List FetchLaunch) :=
  match timer with
  | some t => some (entries, some t, [])
  | none => serviceTimerLoop now fuel entries

/-- The first component of the accumulator of `shortestTimeout`'s loop: the
minimum of `now` and the `lastFetched` values of the non-fetching entries. -/
def earliestNonFetching (now : Nat) (entries : List entry) : Nat :=
  entries.foldl (fun x e => if e.info.fetching then x else min x e.info.lastFetched) now

/-- The second component (`expiring`) of the accumulator of
`shortestTimeout`'s loop: whether some non-fetching entry has `lastFetched`
strictly before `now`. -/
def anyEligible (now : Nat) (entries : List entry) : Bool :=
  entries.any (fun e => !e.info.fetching && decide (e.info.lastFetched < now))

/-- A run of the actor loop over a trace of timestamped messages: each message
is processed at its `time.Now()` reading; `none` when some step panics. -/
def processTrace : List entry → List (Nat × KeepMessage) → Option (List entry)
  | entries, [] => some entries
  | entries, (now, msg) :: rest =>
    match processMessage now entries msg with
    | none => none
    | some (es, _) => processTrace es rest

/-- The `time.Now()` readings of a trace are non-decreasing, starting at or
after `t`. -/
def clockMono : Nat → List (Nat × KeepMessage) → Prop
  | _, [] => True
  | t, (now, _) :: rest => t ≤ now ∧ clockMono now rest

/-- Every `lastFetched` in the table is at or before `t` (it was obtained from
an earlier `time.Now()` reading). -/
def lfBound (t : Nat) (entries : List entry) : Prop :=
  ∀ e ∈ entries, e.info.lastFetched ≤ t

/-- The entry table is a Go map keyed by `path`, so the paths of the listed
entries are pairwise distinct. -/
def pathsNodup (entries : List entry) : Prop :=
  (entries.map (fun e => e.info.path)).Nodup

/-- The implicit invariant of the entry table: a non-fetching entry has no
queued waiters. -/
def waitersInv (entries : List entry) : Prop :=
  ∀ e ∈ entries, e.info.fetching = false → e.waiters = []

/-! ## Concrete fixtures used in witnesses and counterexamples -/

/-- An entry for path `/a` with the given timestamp, flag and waiters. -/
def entA (lf : Nat) (f : Bool) (ws : List Nat) : entry :=
  { info := { path := "/a", count := 0, lastFetched := lf, fetching := f },
    waiters := ws }

/-- An entry for path `/b` with the given timestamp, flag and waiters. -/
def entB (lf : Nat) (f : Bool) (ws : List Nat) : entry :=
  { info := { path := "/b", count := 0, lastFetched := lf, fetching := f },
    waiters := ws }

/-- A fetch environment that returns a non-JSON response successfully. -/
def envHtml : FetchEnv :=
  { reqError := false, transportError := false, contentType := "text/html",
    copyError := false, body := [1] }

/-! ## Basic lemmas about the entry table -/

theorem findEntry_path {entries : List entry} {path : String} {e : entry}
    (h : findEntry entries path = some e) : e.info.path = path := by
  have := List.find?_some h
  simpa using this

theorem find?_replace_self {path : String} {e : entry} (he : e.info.path = path) :
    ∀ entries : List entry, entries.any (fun x => x.info.path == path) = true →
      (entries.map (fun x => if x.info.path == path then e else x)).find?
        (fun x => x.info.path == path) = some e := by
  intro entries h
  induction entries with
  | nil => simp at h
  | cons x xs ih =>
    by_cases hx : x.info.path = path
    · simp [hx, he]
    · have hx' : (x.info.path == path) = false := by simpa using hx
      simp only [List.any_cons, hx', Bool.false_or] at h
      simp only [List.map_cons, if_neg (show ¬ (x.info.path == path) = true by simp [hx'])]
      rw [List.find?_cons_of_neg (p := fun y : entry => y.info.path == path) _ (by simp [hx'])]
      exact ih h

theorem findEntry_setEntry_self {path : String} {e : entry} (he : e.info.path = path)
    (entries : List entry) : findEntry (setEntry entries path e) path = some e := by
  unfold setEntry
  by_cases h : entries.any (fun x => x.info.path == path) = true
  · rw [if_pos h]
    exact find?_replace_self he entries h
  · rw [if_neg h]
    have hall : ∀ x ∈ entries, ¬ (x.info.path == path) = true := by
      intro x hx hxp
      exact h (List.any_eq_true.mpr ⟨x, hx, hxp⟩)
    unfold findEntry
    rw [List.find?_append]
    have hnone : entries.find? (fun x => x.info.path == path) = none :=
      List.find?_eq_none.mpr hall
    simp [hnone, he]

theorem find?_replace_other {path q : String} {e : entry} (he : e.info.path = path)
    (hne : q ≠ path) (entries : List entry) :
    (entries.map (fun x => if x.info.path == path then e else x)).find?
      (fun x => x.info.path == q) = entries.find? (fun x => x.info.path == q) := by
  induction entries with
  | nil => rfl
  | cons x xs ih =>
    by_cases hx : x.info.path = path
    · have h1 : ¬ (e.info.path == q) = true := by
        simp only [beq_iff_eq, he]
        exact fun hh => hne hh.symm
      have h2 : ¬ (x.info.path == q) = true := by
        simp only [beq_iff_eq, hx]
        exact fun hh => hne hh.symm
      simp only [List.map_cons, if_pos (show (x.info.path == path) = true by simpa using hx)]
      rw [List.find?_cons_of_neg (p := fun y : entry => y.info.path == q) _ h1,
        List.find?_cons_of_neg (p := fun y : entry => y.info.path == q) _ h2]
      exact ih
    · simp only [List.map_cons, if_neg (show ¬ (x.info.path == path) = true by simpa using hx)]
      by_cases hq : (x.info.path == q) = true
      · rw [List.find?_cons_of_pos (p := fun y : entry => y.info.path == q) _ hq,
          List.find?_cons_of_pos (p := fun y : entry => y.info.path == q) _ hq]
      · rw [List.find?_cons_of_neg (p := fun y : entry => y.info.path == q) _ hq,
          List.find?_cons_of_neg (p := fun y : entry => y.info.path == q) _ hq]
        exact ih

theorem findEntry_setEntry_other {path q : String} {e : entry} (he : e.info.path = path)
    (hne : q ≠ path) (entries : List entry) :
    findEntry (setEntry entries path e) q = findEntry entries q := by
  unfold setEntry
  by_cases h : entries.any (fun x => x.info.path == path) = true
  · rw [if_pos h]
    exact find?_replace_other he hne entries
  · rw [if_neg h]
    unfold findEntry
    rw [List.find?_append]
    have h1 : ¬ (e.info.path == q) = true := by
      simp only [beq_iff_eq, he]
      exact fun hh => hne hh.symm
    cases hfind : (entries.find? fun x => x.info.path == q) with
    | some v => rfl
    | none => simp [h1]

theorem mem_setEntry {entries : List entry} {path : String} {e x : entry}
    (hx : x ∈ setEntry entries path e) : x ∈ entries ∨ x = e := by
  unfold setEntry at hx
  by_cases h : entries.any (fun y => y.info.path == path) = true
  · rw [if_pos h] at hx
    rcases List.mem_map.mp hx with ⟨y, hy, hyx⟩
    by_cases hyp : (y.info.path == path) = true
    · right
      rw [if_pos hyp] at hyx
      exact hyx.symm
    · left
      rw [if_neg hyp] at hyx
      rw [← hyx]
      exact hy
  · rw [if_neg h] at hx
    rcases List.mem_append.mp hx with h1 | h1
    · left; exact h1
    · right; simpa using h1

theorem lookupOrCreate_path (now : Nat) (entries : List entry) (path : String) :
    (lookupOrCreate now entries path).info.path = path := by
  unfold lookupOrCreate
  cases h : findEntry entries path with
  | some e => exact findEntry_path h
  | none => rfl

theorem lookupOrCreate_inv (now : Nat) (entries : List entry) (path : String)
    (hinv : waitersInv entries) :
    (lookupOrCreate now entries path).info.fetching = false →
    (lookupOrCreate now entries path).waiters = [] := by
  unfold lookupOrCreate
  cases h : findEntry entries path with
  | some e => exact fun hf => hinv e (List.mem_of_find?_eq_some h) hf
  | none => exact fun _ => rfl

/-! ## Lemmas about the refresh sweep -/

theorem fetchExpiredEntry_path (now : Nat) (x : entry) :
    ((fetchExpiredEntry now x).1).info.path = x.info.path := by
  unfold fetchExpiredEntry
  split
  · rfl
  split <;> rfl

theorem fetchExpiredEntry_launch (now : Nat) (y : entry) (l : FetchLaunch)
    (h : (fetchExpiredEntry now y).2 = some l) :
    l.path = y.info.path ∧ l.hasSink = false := by
  unfold fetchExpiredEntry at h
  split at h
  · simp at h
  split at h
  · obtain rfl : _ = l := Option.some.inj h
    exact ⟨rfl, rfl⟩
  · simp at h

theorem fetchExpiredEntry_eligible (now : Nat) (e : entry)
    (h1 : e.info.fetching = false) (h2 : e.info.lastFetched + expireDuration < now) :
    fetchExpiredEntry now e =
      ({ e with info := { e.info with fetching := true } },
       some { path := e.info.path, hasSink := false }) := by
  unfold fetchExpiredEntry
  rw [h1]
  simp [h2]

theorem fetchExpiredEntry_fetching (now : Nat) (e : entry)
    (h1 : e.info.fetching = true) : fetchExpiredEntry now e = (e, none) := by
  unfold fetchExpiredEntry
  rw [h1]
  simp

theorem findEntry_map_of_nodup (f : entry → entry)
    (hf : ∀ x, (f x).info.path = x.info.path) :
    ∀ (entries : List entry), pathsNodup entries → ∀ e ∈ entries,
      findEntry (entries.map f) e.info.path = some (f e) := by
  intro entries
  induction entries with
  | nil => intro _ e he; simp at he
  | cons x xs ih =>
    intro hnd e he
    have hnd' : pathsNodup xs ∧ x.info.path ∉ xs.map (fun y => y.info.path) := by
      unfold pathsNodup at hnd ⊢
      simp only [List.map_cons, List.nodup_cons] at hnd
      exact ⟨hnd.2, hnd.1⟩
    rcases List.mem_cons.mp he with rfl | he'
    · unfold findEntry
      rw [List.map_cons, List.find?_cons_of_pos (p := fun y : entry => y.info.path == e.info.path)
        _ (by simp [hf])]
    · have hne : x.info.path ≠ e.info.path := by
        intro heq
        exact hnd'.2 (heq ▸ List.mem_map.mpr ⟨e, he', rfl⟩)
      unfold findEntry
      rw [List.map_cons, List.find?_cons_of_neg (p := fun y : entry => y.info.path == e.info.path)
        _ (by simp [hf, hne])]
      exact ih hnd'.1 e he'

theorem launches_filter_nil (now : Nat) (q : String) :
    ∀ (xs : List entry), (∀ y ∈ xs, y.info.path ≠ q) →
      (fetchExpired now xs).2.filter (fun l => l.path == q) = [] := by
  intro xs
  induction xs with
  | nil => intro _; rfl
  | cons x xs ih =>
    intro hall
    have hx : x.info.path ≠ q := hall x (List.mem_cons_self x xs)
    have ihh := ih (fun y hy => hall y (List.mem_cons_of_mem x hy))
    unfold fetchExpired at ihh ⊢
    rw [List.filterMap_cons]
    cases hgx : (fetchExpiredEntry now x).2 with
    | none => exact ihh
    | some l =>
      have hl := fetchExpiredEntry_launch now x l hgx
      rw [List.filter_cons_of_neg (by simp [hl.1, hx]), ihh]

theorem fetchExpired_launches_filter (now : Nat) :
    ∀ (entries : List entry), pathsNodup entries → ∀ e ∈ entries,
      (fetchExpired now entries).2.filter (fun l => l.path == e.info.path) =
        ((fetchExpiredEntry now e).2.map (fun l => [l])).getD [] := by
  intro entries
  induction entries with
  | nil => intro _ e he; simp at he
  | cons x xs ih =>
    intro hnd e he
    have hnd' : pathsNodup xs ∧ x.info.path ∉ xs.map (fun y => y.info.path) := by
      unfold pathsNodup at hnd ⊢
      simp only [List.map_cons, List.nodup_cons] at hnd
      exact ⟨hnd.2, hnd.1⟩
    unfold fetchExpired
    rw [List.filterMap_cons]
    rcases List.mem_cons.mp he with rfl | he'
    · have hall : ∀ y ∈ xs, y.info.path ≠ e.info.path := by
        intro y hy heq
        exact hnd'.2 (heq ▸ List.mem_map.mpr ⟨y, hy, rfl⟩)
      have htail := launches_filter_nil now e.info.path xs hall
      unfold fetchExpired at htail
      cases hge : (fetchExpiredEntry now e).2 with
      | none => simpa using htail
      | some l =>
        have hl := fetchExpiredEntry_launch now e l hge
        rw [List.filter_cons_of_pos (by simp [hl.1]), htail]
        rfl
    · have hx : x.info.path ≠ e.info.path := by
        intro heq
        exact hnd'.2 (heq ▸ List.mem_map.mpr ⟨e, he', rfl⟩)
      have ihh := ih hnd'.1 e he'
      unfold fetchExpired at ihh
      cases hgx : (fetchExpiredEntry now x).2 with
      | none => exact ihh
      | some l =>
        have hl := fetchExpiredEntry_launch now x l hgx
        rw [List.filter_cons_of_neg (by simp [hl.1, hx])]
        exact ihh

/-! ## Lemmas about the deadline computation -/

theorem shortestTimeout_fold :
    ∀ (entries : List entry) (a : Nat) (b : Bool),
      entries.foldl
        (fun acc e =>
          if e.info.fetching then acc
          else if e.info.lastFetched < acc.1 then (e.info.lastFetched, true) else acc)
        (a, b) =
      (entries.foldl (fun x e => if e.info.fetching then x else min x e.info.lastFetched) a,
       b || entries.any (fun e => !e.info.fetching && decide (e.info.lastFetched < a))) := by
  intro entries
  induction entries with
  | nil => intro a b; simp
  | cons x xs ih =>
    intro a b
    by_cases hf : x.info.fetching = true
    · simp only [List.foldl_cons, List.any_cons, hf, if_true, Bool.not_true,
        Bool.false_and, Bool.or_false]
      exact ih a b
    · have hf' : x.info.fetching = false := Bool.eq_false_iff.mpr hf
      by_cases hlt : x.info.lastFetched < a
      · simp only [List.foldl_cons, List.any_cons, hf', Bool.false_eq_true, if_false,
          hlt, if_true, Bool.not_false, Bool.true_and, decide_eq_true_eq]
        rw [ih, Nat.min_eq_right (Nat.le_of_lt hlt)]
        simp [hlt]
      · have hge : a ≤ x.info.lastFetched := Nat.le_of_not_lt hlt
        simp only [List.foldl_cons, List.any_cons, hf', Bool.false_eq_true, if_false,
          hlt, Bool.not_false, Bool.true_and]
        rw [ih, Nat.min_eq_left hge]
        simp [Nat.not_lt.mpr hge]

theorem shortestTimeout_eq (now : Nat) (entries : List entry) :
    shortestTimeout now entries =
      (if earliestNonFetching now entries + expireDuration < now then 0
       else earliestNonFetching now entries + expireDuration - now,
       anyEligible now entries) := by
  unfold shortestTimeout earliestNonFetching anyEligible
  rw [shortestTimeout_fold]
  by_cases h : (entries.foldl (fun x e => if e.info.fetching then x
      else min x e.info.lastFetched) now) + expireDuration < now <;>
    simp [h]

theorem earliestFold_le_seed :
    ∀ (xs : List entry) (a : Nat),
      xs.foldl (fun x e => if e.info.fetching then x else min x e.info.lastFetched) a ≤ a := by
  intro xs
  induction xs with
  | nil => intro a; exact Nat.le_refl a
  | cons x xs ih =>
    intro a
    by_cases hf : x.info.fetching = true
    · simpa [hf] using ih a
    · have hf' : x.info.fetching = false := Bool.eq_false_iff.mpr hf
      simp only [List.foldl_cons, hf', Bool.false_eq_true, if_false]
      exact Nat.le_trans (ih (min a x.info.lastFetched)) (Nat.min_le_left _ _)

theorem earliestFold_le_mem :
    ∀ (xs : List entry) (a : Nat) (e : entry), e ∈ xs → e.info.fetching = false →
      xs.foldl (fun x e => if e.info.fetching then x else min x e.info.lastFetched) a ≤
        e.info.lastFetched := by
  intro xs
  induction xs with
  | nil => intro a e he; simp at he
  | cons x xs ih =>
    intro a e he hef
    rcases List.mem_cons.mp he with rfl | he'
    · simp only [List.foldl_cons, hef, Bool.false_eq_true, if_false]
      exact Nat.le_trans (earliestFold_le_seed xs _) (Nat.min_le_right _ _)
    · by_cases hf : x.info.fetching = true
      · simpa [hf] using ih a e he' hef
      · have hf' : x.info.fetching = false := Bool.eq_false_iff.mpr hf
        simp only [List.foldl_cons, hf', Bool.false_eq_true, if_false]
        exact ih (min a x.info.lastFetched) e he' hef

theorem earliestFold_attained :
    ∀ (xs : List entry) (a : Nat),
      xs.foldl (fun x e => if e.info.fetching then x else min x e.info.lastFetched) a = a ∨
      ∃ e ∈ xs, e.info.fetching = false ∧
        xs.foldl (fun x e => if e.info.fetching then x else min x e.info.lastFetched) a =
          e.info.lastFetched := by
  intro xs
  induction xs with
  | nil => intro a; exact Or.inl rfl
  | cons x xs ih =>
    intro a
    by_cases hf : x.info.fetching = true
    · rcases ih a with h | ⟨e, he, hef, heq⟩
      · exact Or.inl (by simpa [hf] using h)
      · exact Or.inr ⟨e, List.mem_cons_of_mem x he, hef, by simpa [hf] using heq⟩
    · have hf' : x.info.fetching = false := Bool.eq_false_iff.mpr hf
      rcases ih (min a x.info.lastFetched) with h | ⟨e, he, hef, heq⟩
      · rcases Nat.le_total a x.info.lastFetched with hle | hle
        · refine Or.inl ?_
          simp only [List.foldl_cons, hf', Bool.false_eq_true, if_false]
          rw [Nat.min_eq_left hle] at h
          rw [Nat.min_eq_left hle]
          exact h
        · refine Or.inr ⟨x, List.mem_cons_self x xs, hf', ?_⟩
          simp only [List.foldl_cons, hf', Bool.false_eq_true, if_false]
          rw [Nat.min_eq_right hle] at h
          rw [Nat.min_eq_right hle]
          exact h
      · refine Or.inr ⟨e, List.mem_cons_of_mem x he, hef, ?_⟩
        simp only [List.foldl_cons, hf', Bool.false_eq_true, if_false]
        exact heq

theorem anyEligible_iff (now : Nat) (entries : List entry) :
    anyEligible now entries = true ↔
      ∃ e ∈ entries, e.info.fetching = false ∧ e.info.lastFetched < now := by
  unfold anyEligible
  simp [List.any_eq_true, Bool.not_eq_true']

theorem mem_swept_nonfetching (now : Nat) (entries : List entry) (e : entry)
    (he : e ∈ (fetchExpired now entries).1) (hf : e.info.fetching = false) :
    e ∈ entries ∧ ¬ (e.info.lastFetched + expireDuration < now) := by
  rcases List.mem_map.mp he with ⟨x, hx, hxe⟩
  unfold fetchExpiredEntry at hxe
  split at hxe
  · rename_i hxf
    subst hxe
    exact ⟨hx, fun _ => by rw [hf] at hxf; exact Bool.noConfusion hxf⟩
  split at hxe
  · subst hxe
    simp at hf
  · rename_i hnc
    subst hxe
    exact ⟨hx, hnc⟩

theorem swept_future (now : Nat) (entries : List entry)
    (hnb : ∀ e ∈ entries, e.info.fetching = false →
      e.info.lastFetched + expireDuration ≠ now) :
    ∀ e ∈ (fetchExpired now entries).1, e.info.fetching = false →
      now < e.info.lastFetched + expireDuration := by
  intro e he hf
  obtain ⟨hmem, hge⟩ := mem_swept_nonfetching now entries e he hf
  have hne := hnb e hmem hf
  omega

theorem earliest_swept_future (now : Nat) (entries : List entry)
    (hnb : ∀ e ∈ entries, e.info.fetching = false →
      e.info.lastFetched + expireDuration ≠ now) :
    now < earliestNonFetching now ((fetchExpired now entries).1) + expireDuration := by
  rcases earliestFold_attained ((fetchExpired now entries).1) now with h | ⟨e, he, hef, heq⟩
  · unfold earliestNonFetching
    rw [h]
    have : 0 < expireDuration := by norm_num [expireDuration]
    omega
  · unfold earliestNonFetching
    rw [heq]
    exact swept_future now entries hnb e he hef

theorem serviceTimerLoop_one (now : Nat) (entries : List entry) :
    serviceTimerLoop now 1 entries =
      (if (shortestTimeout now (fetchExpired now entries).1).2 = false
       then some ((fetchExpired now entries).1, none, (fetchExpired now entries).2)
       else if 0 < (shortestTimeout now (fetchExpired now entries).1).1
       then some ((fetchExpired now entries).1,
         some (shortestTimeout now (fetchExpired now entries).1).1,
         (fetchExpired now entries).2)
       else none) := rfl

theorem serviceTimerLoop_succ (now : Nat) (fuel : Nat) (entries : List entry) :
    serviceTimerLoop now (fuel + 1) entries =
      (if (shortestTimeout now (fetchExpired now entries).1).2 = false
       then some ((fetchExpired now entries).1, none, (fetchExpired now entries).2)
       else if 0 < (shortestTimeout now (fetchExpired now entries).1).1
       then some ((fetchExpired now entries).1,
         some (shortestTimeout now (fetchExpired now entries).1).1,
         (fetchExpired now entries).2)
       else match serviceTimerLoop now fuel (fetchExpired now entries).1 with
         | none => none
         | some (es, t, ls) => some (es, t, (fetchExpired now entries).2 ++ ls)) := rfl

/-! ## Lemmas for runs of the actor loop -/

theorem lookupOrCreate_lf (now : Nat) (entries : List entry) (q : String)
    (hb : lfBound now entries) :
    (lookupOrCreate now entries q).info.lastFetched ≤ now := by
  unfold lookupOrCreate
  cases h : findEntry entries q with
  | some e => exact hb e (List.mem_of_find?_eq_some h)
  | none => exact Nat.le_refl now

theorem lfBound_mono (t t' : Nat) (entries : List entry) (h : lfBound t entries)
    (hle : t ≤ t') : lfBound t' entries :=
  fun e he => Nat.le_trans (h e he) hle

theorem processMessage_shape (now : Nat) (entries es : List entry) (msg : KeepMessage)
    (acts : List ChanAction) (h : processMessage now entries msg = some (es, acts)) :
    ∃ e1, e1.info.path = msg.Path ∧ es = setEntry entries msg.Path e1 ∧
      ((∀ p d, msg ≠ KeepMessage.fetched p d) →
        e1.info.lastFetched = (lookupOrCreate now entries msg.Path).info.lastFetched) ∧
      (∀ p d, msg = KeepMessage.fetched p d → e1.info.lastFetched = now) := by
  cases msg with
  | request p =>
    refine ⟨{ lookupOrCreate now entries p with
      info := { (lookupOrCreate now entries p).info with
        count := (lookupOrCreate now entries p).info.count + 1 } },
      lookupOrCreate_path now entries p, ?_, fun _ => rfl,
      fun p d hd => KeepMessage.noConfusion hd⟩
    simp only [processMessage, KeepMessage.Path, Option.some.injEq, Prod.mk.injEq] at h
    exact h.1.symm
  | fetching p w =>
    by_cases hf : (lookupOrCreate now entries p).info.fetching = true
    · refine ⟨{ lookupOrCreate now entries p with
        waiters := (lookupOrCreate now entries p).waiters ++ [w] },
        lookupOrCreate_path now entries p, ?_, fun _ => rfl,
        fun p d hd => KeepMessage.noConfusion hd⟩
      simp only [processMessage, KeepMessage.Path, hf, if_true, Option.some.injEq,
        Prod.mk.injEq] at h
      exact h.1.symm
    · have hf' : (lookupOrCreate now entries p).info.fetching = false :=
        Bool.eq_false_iff.mpr hf
      refine ⟨{ lookupOrCreate now entries p with
        info := { (lookupOrCreate now entries p).info with fetching := true } },
        lookupOrCreate_path now entries p, ?_, fun _ => rfl,
        fun p d hd => KeepMessage.noConfusion hd⟩
      simp only [processMessage, KeepMessage.Path, hf', Bool.false_eq_true, if_false,
        Option.some.injEq, Prod.mk.injEq] at h
      exact h.1.symm
  | fetched p d =>
    by_cases hf : (lookupOrCreate now entries p).info.fetching = true
    · refine ⟨{ info := { (lookupOrCreate now entries p).info with
        lastFetched := now, fetching := false }, waiters := [] },
        lookupOrCreate_path now entries p, ?_,
        fun hcond => absurd rfl (hcond p d), fun _ _ _ => rfl⟩
      simp only [processMessage, KeepMessage.Path, hf, if_true, Option.some.injEq,
        Prod.mk.injEq] at h
      exact h.1.symm
    · have hf' : (lookupOrCreate now entries p).info.fetching = false :=
        Bool.eq_false_iff.mpr hf
      simp [processMessage, KeepMessage.Path, hf'] at h

theorem processMessage_lfBound (now : Nat) (entries es : List entry) (msg : KeepMessage)
    (acts : List ChanAction) (hb : lfBound now entries)
    (h : processMessage now entries msg = some (es, acts)) : lfBound now es := by
  obtain ⟨em, hpath, hes, hnf, hfd⟩ := processMessage_shape now entries es msg acts h
  subst hes
  intro x hx
  rcases mem_setEntry hx with hmem | rfl
  · exact hb x hmem
  · cases msg with
    | request p =>
      rw [hnf (fun p d hd => KeepMessage.noConfusion hd)]
      exact lookupOrCreate_lf now entries p hb
    | fetching p w =>
      rw [hnf (fun p d hd => KeepMessage.noConfusion hd)]
      exact lookupOrCreate_lf now entries p hb
    | fetched p d =>
      rw [hfd p d rfl]

theorem processMessage_lastFetched_step (now : Nat) (entries es : List entry)
    (msg : KeepMessage) (acts : List ChanAction) (q : String) (e0 : entry)
    (h : processMessage now entries msg = some (es, acts))
    (h0 : findEntry entries q = some e0) :
    ∃ e1, findEntry es q = some e1 ∧
      ((∀ d, msg ≠ KeepMessage.fetched q d) → e1.info.lastFetched = e0.info.lastFetched) ∧
      (e0.info.lastFetched ≤ now → e0.info.lastFetched ≤ e1.info.lastFetched) := by
  obtain ⟨em, hpath, hes, hnf, hfd⟩ := processMessage_shape now entries es msg acts h
  subst hes
  by_cases hq : q = msg.Path
  · have hfind : findEntry (setEntry entries msg.Path em) q = some em := by
      rw [hq]
      exact findEntry_setEntry_self hpath entries
    have hloc : lookupOrCreate now entries msg.Path = e0 := by
      unfold lookupOrCreate
      rw [← hq, h0]
    refine ⟨em, hfind, ?_, ?_⟩
    · intro hcond
      have hcond' : ∀ p d, msg ≠ KeepMessage.fetched p d := by
        intro p d hd
        refine hcond d ?_
        rw [hd]
        have hqp : q = p := by rw [hq, hd]; rfl
        rw [hqp]
      rw [hnf hcond', hloc]
    · intro hle
      cases msg with
      | request p =>
        rw [hnf (fun p d hd => KeepMessage.noConfusion hd), hloc]
      | fetching p w =>
        rw [hnf (fun p d hd => KeepMessage.noConfusion hd), hloc]
      | fetched p d =>
        rw [hfd p d rfl]
        exact hle
  · have hfind : findEntry (setEntry entries msg.Path em) q = findEntry entries q :=
      findEntry_setEntry_other hpath hq entries
    exact ⟨e0, by rw [hfind, h0], fun _ => rfl, fun _ => Nat.le_refl _⟩

/-! ## Claim theorems -/

/-- C1: processing a `fetching(path, replyChannel)` message: when the entry's
`fetching` flag is false the actor sets `fetching := true` and the only channel
action is closing the reply channel (no data is ever sent on it), leaving the
waiter list untouched; when `fetching` is already true the actor appends the
reply channel to the waiter list and performs no channel action at all (in
particular it does not close it). -/
theorem fetching_message_leader_follower (now : Nat) (entries : List entry)
    (path : String) (w : Nat) :
    ((lookupOrCreate now entries path).info.fetching = false →
      ∃ es, processMessage now entries (.fetching path w) = some (es, [ChanAction.closed w]) ∧
        ∃ e1, findEntry es path = some e1 ∧ e1.info.fetching = true ∧
          e1.waiters = (lookupOrCreate now entries path).waiters) ∧
    ((lookupOrCreate now entries path).info.fetching = true →
      ∃ es, processMessage now entries (.fetching path w) = some (es, []) ∧
        ∃ e1, findEntry es path = some e1 ∧ e1.info.fetching = true ∧
          e1.waiters = (lookupOrCreate now entries path).waiters ++ [w]) := by
  have hp := lookupOrCreate_path now entries path
  constructor
  · intro h
    refine ⟨setEntry entries path
      { lookupOrCreate now entries path with
        info := { (lookupOrCreate now entries path).info with fetching := true } }, ?_, ?_⟩
    · simp [processMessage, KeepMessage.Path, h]
    · exact ⟨{ lookupOrCreate now entries path with
        info := { (lookupOrCreate now entries path).info with fetching := true } },
        findEntry_setEntry_self (e := { lookupOrCreate now entries path with
          info := { (lookupOrCreate now entries path).info with fetching := true } })
          hp entries, rfl, rfl⟩
  · intro h
    refine ⟨setEntry entries path
      { lookupOrCreate now entries path with
        waiters := (lookupOrCreate now entries path).waiters ++ [w] }, ?_, ?_⟩
    · simp [processMessage, KeepMessage.Path, h]
    · exact ⟨{ lookupOrCreate now entries path with
        waiters := (lookupOrCreate now entries path).waiters ++ [w] },
        findEntry_setEntry_self (e := { lookupOrCreate now entries path with
          waiters := (lookupOrCreate now entries path).waiters ++ [w] })
          hp entries, h, rfl⟩

/-- C1 witness: on the empty table (fresh entry, `fetching = false`) the reply
channel is closed and the flag set; on that resulting table a second `fetching`
message queues its channel as a waiter. -/
theorem fetching_message_leader_follower_witness :
    (∃ es, processMessage 5 [] (.fetching "/a" 1) = some (es, [ChanAction.closed 1]) ∧
      ∃ e1, findEntry es "/a" = some e1 ∧ e1.info.fetching = true ∧
        e1.waiters = (lookupOrCreate 5 [] "/a").waiters) ∧
    (∃ es, processMessage 6
        [entA 5 true []] (.fetching "/a" 2) = some (es, []) ∧
      ∃ e1, findEntry es "/a" = some e1 ∧ e1.info.fetching = true ∧
        e1.waiters = (lookupOrCreate 6
          [entA 5 true []] "/a").waiters ++ [2]) :=
  ⟨(fetching_message_leader_follower 5 [] "/a" 1).1 (by decide),
   (fetching_message_leader_follower 6
      [entA 5 true []] "/a" 2).2 (by decide)⟩

/-- C2: processing `fetched(path, data)` while the entry is fetching sets
`lastFetched := now` and `fetching := false`, empties the waiter list, and the
channel actions are exactly one per queued waiter, in order: a send of the same
bytes to every waiter when data is present, a close of every waiter's channel
when data is absent. -/
theorem fetched_message_fanout (now : Nat) (entries : List entry) (path : String)
    (data : Option (List Nat))
    (h : (lookupOrCreate now entries path).info.fetching = true) :
    ∃ es, processMessage now entries (.fetched path data) =
        some (es, (lookupOrCreate now entries path).waiters.map (fun ch =>
          match data with
          | some d => ChanAction.sent ch d
          | none => ChanAction.closed ch)) ∧
      ∃ e1, findEntry es path = some e1 ∧ e1.info.lastFetched = now ∧
        e1.info.fetching = false ∧ e1.waiters = [] := by
  have hp := lookupOrCreate_path now entries path
  refine ⟨setEntry entries path
    { info := { (lookupOrCreate now entries path).info with
        lastFetched := now, fetching := false }, waiters := [] }, ?_, ?_⟩
  · simp [processMessage, KeepMessage.Path, h]
  · exact ⟨{ info := { (lookupOrCreate now entries path).info with
        lastFetched := now, fetching := false }, waiters := [] },
      findEntry_setEntry_self (e := { info := { (lookupOrCreate now entries path).info with
          lastFetched := now, fetching := false }, waiters := [] })
        hp entries, rfl, rfl, rfl⟩

/-- C2 witness: two queued waiters each receive the same bytes `[9, 9]` when
data is present, and both channels are closed when it is absent. -/
theorem fetched_message_fanout_witness :
    (∃ es, processMessage 7
        [entA 0 true [2, 3]] (.fetched "/a" (some [9, 9])) =
        some (es, [ChanAction.sent 2 [9, 9], ChanAction.sent 3 [9, 9]]) ∧
      ∃ e1, findEntry es "/a" = some e1 ∧ e1.info.lastFetched = 7 ∧
        e1.info.fetching = false ∧ e1.waiters = []) ∧
    (∃ es, processMessage 7
        [entA 0 true [2, 3]] (.fetched "/a" none) =
        some (es, [ChanAction.closed 2, ChanAction.closed 3]) ∧
      ∃ e1, findEntry es "/a" = some e1 ∧ e1.info.lastFetched = 7 ∧
        e1.info.fetching = false ∧ e1.waiters = []) :=
  ⟨fetched_message_fanout 7
      [entA 0 true [2, 3]] "/a" (some [9, 9]) (by decide),
   fetched_message_fanout 7
      [entA 0 true [2, 3]] "/a" none (by decide)⟩

/-- C3: a `fetched` message for a path whose entry has `fetching = false` —
either a present entry with the flag clear, or a path never seen before (whose
freshly created entry has `fetching = false`) — makes the actor panic
(modelled by `processMessage` returning `none`) instead of continuing. -/
theorem fetched_message_protocol_violation_fatal (now : Nat) (entries : List entry)
    (path : String) (data : Option (List Nat))
    (h : findEntry entries path = none ∨
      ∃ e, findEntry entries path = some e ∧ e.info.fetching = false) :
    processMessage now entries (.fetched path data) = none := by
  have hf : (lookupOrCreate now entries path).info.fetching = false := by
    rcases h with h | ⟨e, he, hfe⟩
    · simp [lookupOrCreate, h]
    · simp [lookupOrCreate, he, hfe]
  simp only [processMessage, KeepMessage.Path, hf]
  rfl

/-- C3 witness: a `fetched` for a never-seen path on the empty table, and a
`fetched` for a present non-fetching entry, both panic. -/
theorem fetched_message_protocol_violation_fatal_witness :
    processMessage 7 [] (.fetched "/a" (some [9])) = none ∧
    processMessage 7
      [entA 0 false []] (.fetched "/a" none) = none :=
  ⟨fetched_message_protocol_violation_fatal 7 [] "/a" (some [9]) (Or.inl (by decide)),
   fetched_message_protocol_violation_fatal 7
      [entA 0 false []] "/a" none
      (Or.inr ⟨entA 0 false [], by decide, by decide⟩)⟩

/-- C6: every invocation of the fetch executor sends exactly one `fetched`
message, for its own path, on every exit path (request-construction error,
transport error, non-JSON content type, copy error, success); the message
carries the buffered body bytes exactly when the copy succeeded and no data
otherwise. -/
theorem fetch_sends_exactly_one_fetched (env : FetchEnv) (path : String)
    (hasSink : Bool) :
    (fetch env path hasSink).sentMessages =
      [(path, if copySucceeded env then some env.body else none)] := by
  obtain ⟨r, t, ct, cp, b⟩ := env
  cases r <;> cases t <;> cases cp <;>
    by_cases hct : contentTypeMain ct = "application/json" <;>
      simp [fetch, copySucceeded, hct]

/-- C8: the executor treats a fetch as producing cacheable data only when the
content type before any `;` parameters is exactly `application/json`: data in
the `fetched` message (or a cache write) implies that content type; and when a
response arrives with any other content type, a 400-class error is written to
the live sink exactly when one is attached, the function does not report a hard
failure (returns no error), and it still sends the completion message with no
data. -/
theorem fetch_content_type_gate (env : FetchEnv) (path : String) (hasSink : Bool) :
    (∀ d, (fetch env path hasSink).sentMessages = [(path, some d)] →
      contentTypeMain env.contentType = "application/json") ∧
    ((fetch env path hasSink).cacheSet.isSome = true →
      contentTypeMain env.contentType = "application/json") ∧
    (env.reqError = false → env.transportError = false →
      contentTypeMain env.contentType ≠ "application/json" →
      (fetch env path hasSink).sinkBadRequest = hasSink ∧
      (fetch env path hasSink).returnedError = false ∧
      (fetch env path hasSink).sentMessages = [(path, none)]) := by
  obtain ⟨r, t, ct, cp, b⟩ := env
  cases r <;> cases t <;> cases cp <;>
    by_cases hct : contentTypeMain ct = "application/json" <;>
      simp [fetch, hct]

/-- C8 witness: a `text/html` response with a live sink attached gets the
400-class error, no hard failure, and a no-data completion message; a
parameterised `application/json; charset=utf-8` response passes the gate. -/
theorem fetch_content_type_gate_witness :
    ((fetch envHtml "/a" true).sinkBadRequest = true ∧
      (fetch envHtml "/a" true).returnedError = false ∧
      (fetch envHtml "/a" true).sentMessages = [("/a", none)]) ∧
    contentTypeMain "application/json; charset=utf-8" = "application/json" :=
  ⟨(fetch_content_type_gate envHtml "/a" true).2.2
      (by decide) (by decide) (by decide),
   by decide⟩

/-- C10: whenever `fetching = false` the waiter list is empty: the invariant
holds for a newly created entry (created with no waiters) and is preserved by
processing every message kind — `request` leaves waiters untouched, `fetching`
appends a waiter only when `fetching = true`, and `fetched` empties the list in
the same step that clears the flag. -/
theorem waiters_empty_invariant (now : Nat) (entries es : List entry)
    (msg : KeepMessage) (acts : List ChanAction) (hinv : waitersInv entries)
    (h : processMessage now entries msg = some (es, acts)) :
    waitersInv es ∧
    (findEntry entries msg.Path = none →
      (lookupOrCreate now entries msg.Path).info.fetching = false ∧
      (lookupOrCreate now entries msg.Path).waiters = []) := by
  refine ⟨?_, fun hn => by simp [lookupOrCreate, hn]⟩
  cases msg with
  | request p =>
    simp only [processMessage, KeepMessage.Path, Option.some.injEq, Prod.mk.injEq] at h
    obtain ⟨hes, -⟩ := h
    subst hes
    intro x hx hxf
    rcases mem_setEntry hx with hmem | rfl
    · exact hinv x hmem hxf
    · exact lookupOrCreate_inv now entries p hinv hxf
  | fetching p w =>
    by_cases hf : (lookupOrCreate now entries p).info.fetching = true
    · simp only [processMessage, KeepMessage.Path, hf, if_true, Option.some.injEq,
        Prod.mk.injEq] at h
      obtain ⟨hes, -⟩ := h
      subst hes
      intro x hx hxf
      rcases mem_setEntry hx with hmem | rfl
      · exact hinv x hmem hxf
      · exact absurd (hf.symm.trans hxf) (by simp)
    · have hf' : (lookupOrCreate now entries p).info.fetching = false :=
        Bool.eq_false_iff.mpr hf
      simp only [processMessage, KeepMessage.Path, hf', Bool.false_eq_true, if_false,
        Option.some.injEq, Prod.mk.injEq] at h
      obtain ⟨hes, -⟩ := h
      subst hes
      intro x hx hxf
      rcases mem_setEntry hx with hmem | rfl
      · exact hinv x hmem hxf
      · exact absurd hxf (by simp)
  | fetched p d =>
    by_cases hf : (lookupOrCreate now entries p).info.fetching = true
    · simp only [processMessage, KeepMessage.Path, hf, if_true, Option.some.injEq,
        Prod.mk.injEq] at h
      obtain ⟨hes, -⟩ := h
      subst hes
      intro x hx hxf
      rcases mem_setEntry hx with hmem | rfl
      · exact hinv x hmem hxf
      · rfl
    · have hf' : (lookupOrCreate now entries p).info.fetching = false :=
        Bool.eq_false_iff.mpr hf
      simp [processMessage, KeepMessage.Path, hf'] at h

/-- C10 witness: the invariant holds after a `fetched` on a fetching entry with
a queued waiter, and a fresh entry is created non-fetching with no waiters. -/
theorem waiters_empty_invariant_witness :
    waitersInv [entA 7 false []] ∧
    (findEntry [entA 5 true [2]] (KeepMessage.fetched "/a" (some [1])).Path = none →
      (lookupOrCreate 7 [entA 5 true [2]]
        (KeepMessage.fetched "/a" (some [1])).Path).info.fetching = false ∧
      (lookupOrCreate 7 [entA 5 true [2]]
        (KeepMessage.fetched "/a" (some [1])).Path).waiters = []) :=
  waiters_empty_invariant 7 [entA 5 true [2]] [entA 7 false []]
    (.fetched "/a" (some [1])) [ChanAction.sent 2 [1]]
    (by unfold waitersInv; decide) (by decide)

/-- C4 counterexample: the claim says an entry whose `lastFetched + TTL` is at
or before the current time is picked up, but an entry sitting exactly at the
deadline (`lastFetched + expireDuration = now`, i.e. "at" the current time) is
not marked and no background fetch is launched — `fetchExpired` requires
`lastFetched + TTL` strictly before `now`. -/
theorem refresh_sweep_at_boundary_not_picked :
    (entA 0 false []).info.fetching = false ∧
    (entA 0 false []).info.lastFetched + expireDuration ≤ expireDuration ∧
    fetchExpired expireDuration [entA 0 false []] = ([entA 0 false []], []) := by
  decide

/-- C4 (amended): in one refresh sweep, every entry with `fetching = false`
whose `lastFetched + TTL` is STRICTLY BEFORE the current time is marked
`fetching = true` and has exactly one background fetch launched for it, with no
live sink; an entry with `fetching = true` is never picked up by the sweep
regardless of its age (it is left untouched and no fetch is launched for it).
TTL is the fixed constant 10 seconds. -/
theorem refresh_sweep_spec (now : Nat) (entries : List entry)
    (hnd : pathsNodup entries) (e : entry) (he : e ∈ entries) :
    (e.info.fetching = false → e.info.lastFetched + expireDuration < now →
      findEntry (fetchExpired now entries).1 e.info.path =
        some { e with info := { e.info with fetching := true } } ∧
      (fetchExpired now entries).2.filter (fun l => l.path == e.info.path) =
        [{ path := e.info.path, hasSink := false }]) ∧
    (e.info.fetching = true →
      findEntry (fetchExpired now entries).1 e.info.path = some e ∧
      (fetchExpired now entries).2.filter (fun l => l.path == e.info.path) = []) ∧
    expireDuration = 10 * 1000000000 := by
  have hfind := findEntry_map_of_nodup (fun x => (fetchExpiredEntry now x).1)
    (fun x => fetchExpiredEntry_path now x) entries hnd e he
  have hfilter := fetchExpired_launches_filter now entries hnd e he
  refine ⟨?_, ?_, rfl⟩
  · intro h1 h2
    have hee := fetchExpiredEntry_eligible now e h1 h2
    constructor
    · show findEntry (entries.map (fun x => (fetchExpiredEntry now x).1)) e.info.path = _
      rw [hfind]
      exact congrArg some (show (fetchExpiredEntry now e).1 = _ by rw [hee])
    · rw [hfilter, hee]
      rfl
  · intro h1
    have hee := fetchExpiredEntry_fetching now e h1
    constructor
    · show findEntry (entries.map (fun x => (fetchExpiredEntry now x).1)) e.info.path = _
      rw [hfind]
      exact congrArg some (show (fetchExpiredEntry now e).1 = _ by rw [hee])
    · rw [hfilter, hee]
      rfl

/-- C4 witness: with two entries, the overdue non-fetching one is marked and
gets exactly one sink-less launch, and an even older fetching one is untouched
with no launch. -/
theorem refresh_sweep_spec_witness :
    (findEntry (fetchExpired (3 * expireDuration) [entA expireDuration false [],
        entB 0 true []]).1 "/a" =
      some { entA expireDuration false [] with
        info := { (entA expireDuration false []).info with fetching := true } } ∧
     (fetchExpired (3 * expireDuration) [entA expireDuration false [],
        entB 0 true []]).2.filter (fun l => l.path == "/a") =
      [{ path := "/a", hasSink := false }]) ∧
    (findEntry (fetchExpired (3 * expireDuration) [entA expireDuration false [],
        entB 0 true []]).1 "/b" =
      some (entB 0 true []) ∧
     (fetchExpired (3 * expireDuration) [entA expireDuration false [],
        entB 0 true []]).2.filter (fun l => l.path == "/b") = []) :=
  ⟨(refresh_sweep_spec (3 * expireDuration)
      [entA expireDuration false [],
       entB 0 true []] (by unfold pathsNodup; decide)
      (entA expireDuration false []) (by decide)).1 (by decide) (by decide),
   ((refresh_sweep_spec (3 * expireDuration)
      [entA expireDuration false [],
       entB 0 true []] (by unfold pathsNodup; decide)
      (entB 0 true []) (by decide)).2.1 (by decide))⟩

/-- C5 counterexample: the claim says a timer is left unarmed only when the
table is empty or every entry is fetching, but with one non-fetching entry
whose `lastFetched` equals `now` (so its deadline `lastFetched + TTL` is in the
future), the scheduler pass returns with no timer armed: the code's `expiring`
flag only counts entries with `lastFetched` strictly before `now`. -/
theorem timer_unarmed_with_nonfetching_entry :
    (entA 5 false []).info.fetching = false ∧
    serviceTimerLoop 5 10 [entA 5 false []] = some ([entA 5 false []], none, []) := by
  decide

/-- C5 (amended): after the refresh sweep, whenever some entry with
`fetching = false` has `lastFetched` strictly before `now`, the next deadline
is the earliest `lastFetched` among non-fetching entries plus TTL, and a single
timer is armed for exactly the remaining duration `deadline - now` (positive,
provided no entry sits exactly at its TTL boundary); the timer is left unarmed
exactly when no non-fetching entry has `lastFetched` strictly before `now` — in
particular when the table is empty or every entry is fetching, but also when
every non-fetching entry has `lastFetched` at or after `now`. -/
theorem deadline_computation_and_timer (now : Nat) (entries : List entry)
    (hnb : ∀ e ∈ entries, e.info.fetching = false →
      e.info.lastFetched + expireDuration ≠ now) :
    (anyEligible now (fetchExpired now entries).1 = true →
      serviceTimerLoop now 1 entries =
        some ((fetchExpired now entries).1,
          some (earliestNonFetching now (fetchExpired now entries).1 + expireDuration - now),
          (fetchExpired now entries).2) ∧
      0 < earliestNonFetching now (fetchExpired now entries).1 + expireDuration - now ∧
      (∃ e ∈ (fetchExpired now entries).1, e.info.fetching = false ∧
        e.info.lastFetched = earliestNonFetching now (fetchExpired now entries).1) ∧
      (∀ e ∈ (fetchExpired now entries).1, e.info.fetching = false →
        earliestNonFetching now (fetchExpired now entries).1 ≤ e.info.lastFetched)) ∧
    (anyEligible now (fetchExpired now entries).1 = false →
      serviceTimerLoop now 1 entries =
        some ((fetchExpired now entries).1, none, (fetchExpired now entries).2)) ∧
    (anyEligible now (fetchExpired now entries).1 = false ↔
      ∀ e ∈ (fetchExpired now entries).1, e.info.fetching = false →
        now ≤ e.info.lastFetched) := by
  have hfut := earliest_swept_future now entries hnb
  have hst := shortestTimeout_eq now (fetchExpired now entries).1
  have hif : ¬ (earliestNonFetching now (fetchExpired now entries).1 + expireDuration < now) :=
    Nat.not_lt.mpr (Nat.le_of_lt hfut)
  have hdur : shortestTimeout now (fetchExpired now entries).1 =
      (earliestNonFetching now (fetchExpired now entries).1 + expireDuration - now,
       anyEligible now (fetchExpired now entries).1) := by
    rw [hst, if_neg hif]
  have hpos : 0 < earliestNonFetching now (fetchExpired now entries).1 + expireDuration - now :=
    Nat.sub_pos_of_lt hfut
  refine ⟨?_, ?_, ?_⟩
  · intro ha
    refine ⟨?_, hpos, ?_, ?_⟩
    · rw [serviceTimerLoop_one, hdur]
      simp [ha, hpos]
    · rcases (anyEligible_iff now (fetchExpired now entries).1).mp ha with ⟨e, he, hef, hlt⟩
      rcases earliestFold_attained (fetchExpired now entries).1 now with h | ⟨e2, he2, hef2, heq⟩
      · exfalso
        have hle := earliestFold_le_mem (fetchExpired now entries).1 now e he hef
        rw [h] at hle
        omega
      · exact ⟨e2, he2, hef2, heq.symm⟩
    · intro e he hef
      exact earliestFold_le_mem (fetchExpired now entries).1 now e he hef
  · intro ha
    rw [serviceTimerLoop_one, hdur]
    simp [ha]
  · constructor
    · intro ha e he hef
      by_contra hlt
      have hx := (anyEligible_iff now (fetchExpired now entries).1).mpr
        ⟨e, he, hef, Nat.lt_of_not_le hlt⟩
      rw [ha] at hx
      exact Bool.noConfusion hx
    · intro hall
      cases hb : anyEligible now (fetchExpired now entries).1 with
      | false => rfl
      | true =>
        rcases (anyEligible_iff now (fetchExpired now entries).1).mp hb with ⟨e, he, hef, hlt⟩
        exact absurd (hall e he hef) (Nat.not_le.mpr hlt)

/-- C5 witness: an entry last fetched at time 0, at `now = 3`: the pass arms a
timer for `0 + TTL - 3`, which is positive. -/
theorem deadline_computation_and_timer_witness :
    serviceTimerLoop 3 1 [entA 0 false []] =
      some ((fetchExpired 3 [entA 0 false []]).1,
        some (earliestNonFetching 3 (fetchExpired 3 [entA 0 false []]).1 + expireDuration - 3),
        (fetchExpired 3 [entA 0 false []]).2) ∧
    0 < earliestNonFetching 3 (fetchExpired 3 [entA 0 false []]).1 + expireDuration - 3 :=
  ⟨((deadline_computation_and_timer 3 [entA 0 false []] (by decide)).1 (by decide)).1,
   ((deadline_computation_and_timer 3 [entA 0 false []] (by decide)).1 (by decide)).2.1⟩

/-- C7 counterexample: with one non-fetching entry sitting exactly at its TTL
boundary (`lastFetched + expireDuration = now`), one iteration of the scheduler
loop makes no progress: the sweep changes nothing and launches nothing, yet the
deadline computation reports `(0, expiring = true)` — so the iteration neither
arms a future timer, nor finds nothing eligible, nor marks any entry fetching,
and at that frozen clock reading the loop never returns (here: not within 12
iterations). -/
theorem scheduler_boundary_iteration_no_progress :
    fetchExpired expireDuration [entA 0 false []] = ([entA 0 false []], []) ∧
    shortestTimeout expireDuration [entA 0 false []] = (0, true) ∧
    serviceTimerLoop expireDuration 12 [entA 0 false []] = none := by
  decide

/-- C7 (amended): an invocation of the scheduler pass terminates — returning
within one iteration of the sweep-plus-deadline loop at a fixed clock reading,
by arming a future timer or finding nothing eligible — provided no non-fetching
entry sits exactly at its TTL boundary (`lastFetched + expireDuration = now`);
at the boundary the iteration makes no progress (see the counterexample) and
the code relies on the clock advancing between iterations. -/
theorem scheduler_pass_terminates (now : Nat) (entries : List entry) (fuel : Nat)
    (hnb : ∀ e ∈ entries, e.info.fetching = false →
      e.info.lastFetched + expireDuration ≠ now) :
    (serviceTimerLoop now (fuel + 1) entries).isSome = true := by
  have hfut := earliest_swept_future now entries hnb
  have hst := shortestTimeout_eq now (fetchExpired now entries).1
  have hif : ¬ (earliestNonFetching now (fetchExpired now entries).1 + expireDuration < now) :=
    Nat.not_lt.mpr (Nat.le_of_lt hfut)
  have hdur : shortestTimeout now (fetchExpired now entries).1 =
      (earliestNonFetching now (fetchExpired now entries).1 + expireDuration - now,
       anyEligible now (fetchExpired now entries).1) := by
    rw [hst, if_neg hif]
  rw [serviceTimerLoop_succ, hdur]
  cases hb : anyEligible now (fetchExpired now entries).1 with
  | false => simp
  | true => simp [Nat.sub_pos_of_lt hfut]

/-- C7 witness: the pass at `now = 3` over a single fresh entry returns within
one iteration. -/
theorem scheduler_pass_terminates_witness :
    (serviceTimerLoop 3 (0 + 1) [entA 0 false []]).isSome = true :=
  scheduler_pass_terminates 3 [entA 0 false []] 0 (by decide)

/-- C9: along any run of the actor loop whose `time.Now()` readings are
non-decreasing and start at or after every `lastFetched` in the initial table,
the `lastFetched` of every entry never decreases, and it is left unchanged by
every message that is not a `fetched` for that entry's path — it changes only
as a side effect of processing a `fetched` message for the path. -/
theorem lastFetched_monotone :
    ∀ (trace : List (Nat × KeepMessage)) (t0 : Nat) (entries es : List entry),
      lfBound t0 entries → clockMono t0 trace →
      processTrace entries trace = some es →
      ∀ (q : String) (e0 e1 : entry),
        findEntry entries q = some e0 → findEntry es q = some e1 →
        e0.info.lastFetched ≤ e1.info.lastFetched ∧
        ((∀ now d, (now, KeepMessage.fetched q d) ∉ trace) →
          e1.info.lastFetched = e0.info.lastFetched) := by
  intro trace
  induction trace with
  | nil =>
    intro t0 entries es hb hc hp q e0 e1 h0 h1
    obtain rfl : entries = es := Option.some.inj hp
    rw [h0] at h1
    obtain rfl := Option.some.inj h1
    exact ⟨Nat.le_refl _, fun _ => rfl⟩
  | cons hd rest ih =>
    obtain ⟨now, msg⟩ := hd
    intro t0 entries es hb hc hp q e0 e1 h0 h1
    obtain ⟨hc1, hc2⟩ := hc
    simp only [processTrace] at hp
    cases hm : processMessage now entries msg with
    | none =>
      rw [hm] at hp
      exact Option.noConfusion hp
    | some pr =>
      obtain ⟨es1, acts⟩ := pr
      rw [hm] at hp
      have hb' : lfBound now entries := lfBound_mono t0 now entries hb hc1
      have hbnext : lfBound now es1 :=
        processMessage_lfBound now entries es1 msg acts hb' hm
      obtain ⟨emid, hmid, hunch, hmono⟩ :=
        processMessage_lastFetched_step now entries es1 msg acts q e0 hm h0
      have hrec := ih now es1 es hbnext hc2 hp q emid e1 hmid h1
      constructor
      · exact Nat.le_trans (hmono (hb' e0 (List.mem_of_find?_eq_some h0))) hrec.1
      · intro hno
        have hmsg : ∀ d, msg ≠ KeepMessage.fetched q d := by
          intro d hd
          exact hno now d (hd ▸ List.mem_cons_self _ _)
        have hno' : ∀ now' d, (now', KeepMessage.fetched q d) ∉ rest := by
          intro now' d hmem
          exact hno now' d (List.mem_cons_of_mem _ hmem)
        rw [hrec.2 hno', hunch hmsg]

/-- C9 witness: starting from an entry last fetched at 5, the run that elects a
leader at 6 and completes the fetch at 7 raises `lastFetched` from 5 to 7. -/
theorem lastFetched_monotone_witness :
    (entA 5 false []).info.lastFetched ≤ (entA 7 false []).info.lastFetched :=
  (lastFetched_monotone
    [(6, KeepMessage.fetching "/a" 1), (7, KeepMessage.fetched "/a" (some [1]))]
    5 [entA 5 false []] [entA 7 false []]
    (by unfold lfBound; decide) ⟨by decide, by decide, trivial⟩ (by decide)
    "/a" (entA 5 false []) (entA 7 false []) (by decide) (by decide)).1

end Keep
